import Mathlib

/-!
Verification of the vello glyph cache (crates/encoding/src/glyph_cache.rs).

The file shallowly embeds the glyph cache: its key and range value types,
the eligibility policy of the memo map, and the encode-or-reuse control
flow of GlyphCache::get_or_insert.  The shared output buffer (the Encoding
type), the font outline source and the stroking function are external
collaborators of this source unit; they are modelled from the operational
contract the spec gives, as noted on each such definition.

Machine integers of the source become Nat (u64/u32 field values, counters);
the f32 font size is carried opaquely as its bit pattern, since the code
only passes it through to the outline source.  The Rust HashMap memo map
becomes an association list with exact-key lookup.
-/

set_option autoImplicit false

namespace GlyphCacheModel

/-- Modelled from the spec: StreamOffsets, "an ordered 6-tuple of counters —
path-tag count, path-data byte count, draw-tag count, draw-data byte count,
transform count, style count — marking a position in the shared buffer".
The type itself is declared outside this source unit; only its fields and
component-wise arithmetic are used here. -/
structure StreamOffsets where
  path_tags : Nat
  path_data : Nat
  draw_tags : Nat
  draw_data : Nat
  transforms : Nat
  styles : Nat
deriving DecidableEq, Repr

/-- The all-zero stream offsets: the position of an empty buffer. -/
def StreamOffsets.zero : StreamOffsets :=
  ⟨0, 0, 0, 0, 0, 0⟩

/-- Component-wise order on stream offsets (used to state that the buffer is
append-only and that the end of a cached range is at or after its start). -/
def StreamOffsets.le (a b : StreamOffsets) : Prop :=
  a.path_tags ≤ b.path_tags ∧ a.path_data ≤ b.path_data ∧
  a.draw_tags ≤ b.draw_tags ∧ a.draw_data ≤ b.draw_data ∧
  a.transforms ≤ b.transforms ∧ a.styles ≤ b.styles

instance (a b : StreamOffsets) : Decidable (StreamOffsets.le a b) := by
  unfold StreamOffsets.le
  infer_instance

/-- GlyphKey from the source: font_id (u64), font_index (u32), glyph_id (u32),
font_size_bits (u32, the bit pattern of the f32 size), hint (bool).
Equality is derived structurally over all five fields, as the Rust
derive(PartialEq, Eq, Hash) does. -/
structure GlyphKey where
  font_id : Nat
  font_index : Nat
  glyph_id : Nat
  font_size_bits : Nat
  hint : Bool
deriving DecidableEq, Repr

/-- Fill rule (peniko::Fill): non-zero or even-odd winding. -/
inductive Fill where
  | nonZero
  | evenOdd
deriving DecidableEq, Repr

/-- Stroke parameters (peniko::kurbo::Stroke): width, caps, joins, dashing.
Opaque at this layer (the spec treats them as caller-supplied and opaque);
carried as an abstract tag so distinct strokes can be told apart. -/
structure Stroke where
  params : Nat
deriving DecidableEq, Repr

/-- Style (peniko::Style): either a fill carrying its rule or a stroke
carrying its parameters. -/
inductive Style where
  | fill (f : Fill)
  | stroke (s : Stroke)
deriving DecidableEq, Repr

/-- A path drawing command, as produced by the draw callbacks of an outline and
consumed by a path builder: move-to, line-to, quadratic, cubic, close.
Coordinates are carried as integers; their numeric value is opaque to the
cache logic (the source merely widens f32 to f64 and forwards them). -/
inductive PathCmd where
  | moveTo (x y : Int)
  | lineTo (x y : Int)
  | quadTo (x0 y0 x y : Int)
  | curveTo (x0 y0 x1 y1 x y : Int)
  | close
deriving DecidableEq, Repr

/-- Modelled from the spec: the number of path segments a command contributes
when appended through the path builder ("finish ... obtaining a segment
count"); drawn curve elements count, a bare move-to or close does not. -/
def cmdSegments : PathCmd → Nat
  | .moveTo _ _ => 0
  | .lineTo _ _ => 1
  | .quadTo _ _ _ _ => 1
  | .curveTo _ _ _ _ _ _ => 1
  | .close => 0

/-- Modelled from the spec: the path-data byte count a command contributes
(coordinates widened in storage; exact byte layout is outside this unit, a
fixed per-command size stands in for it). -/
def cmdDataBytes : PathCmd → Nat
  | .moveTo _ _ => 8
  | .lineTo _ _ => 8
  | .quadTo _ _ _ _ => 16
  | .curveTo _ _ _ _ _ _ => 24
  | .close => 0

/-- Total segment count of a command list. -/
def pathSegments (cmds : List PathCmd) : Nat :=
  (cmds.map cmdSegments).sum

/-- Total path-data byte count of a command list. -/
def pathDataBytes (cmds : List PathCmd) : Nat :=
  (cmds.map cmdDataBytes).sum

/-- Modelled from the spec: the shared append-only output buffer (the
Encoding type, declared outside this source unit).  Only its operational
contract is used by the cache: a position snapshot, "emit fill-style(rule)",
"begin path(auto_close) → path builder" with "append geometry" and
"finish(auto_close) → segment count", and "reset()".  The buffer content is
abstracted to its six stream counters, which is exactly what the snapshot
operation observes. -/
structure Encoding where
  offsets : StreamOffsets
deriving DecidableEq, Repr

/-- The empty buffer: all six counters zero. -/
def Encoding.empty : Encoding :=
  ⟨StreamOffsets.zero⟩

/-- Snapshot of the buffer position: the six counters. -/
def Encoding.stream_offsets (e : Encoding) : StreamOffsets :=
  e.offsets

/-- Modelled from the spec: reset() empties the buffer, returning every
counter to zero. -/
def Encoding.reset (_e : Encoding) : Encoding :=
  Encoding.empty

/-- Modelled from the spec: "Append a fill-style record carrying that rule"
— emitting a fill style appends one record to the style stream, advancing
the style counter.  Nothing in the contract of the spec removes it later. -/
def Encoding.encode_fill_style (e : Encoding) (_fill : Fill) : Encoding :=
  { e with offsets := { e.offsets with styles := e.offsets.styles + 1 } }

/-- Modelled from the spec: begin a path record (creating the builder
writes nothing), append the given commands through the builder, and finalize
without auto-close, returning the segment count together with the buffer.
Per the spec a zero-segment record "must not remain in the buffer", so a
degenerate finalize leaves the buffer untouched; a non-degenerate one
advances the path-tag and path-data counters by the appended geometry. -/
def Encoding.encode_path_finish (e : Encoding) (cmds : List PathCmd) :
    Nat × Encoding :=
  let n := pathSegments cmds
  if n = 0 then
    (0, e)
  else
    (n, { e with offsets := { e.offsets with
            path_tags := e.offsets.path_tags + n,
            path_data := e.offsets.path_data + pathDataBytes cmds } })

/-- Modelled from the spec: a scalable glyph outline from the outline
source.  Drawing it at a size with variation coordinates either fails (the
absence result, "a drawing failure aborts with no value") or yields the full
sequence of move/line/quad/cubic/close callbacks. -/
structure Outline where
  draw : Nat → List Int → Option (List PathCmd)

/-- Modelled from the spec: the outline source (the skrifa
OutlineGlyphCollection), "queried by integer glyph id; returns an optional
scalable outline".  The id it is queried with is a u16. -/
structure OutlineGlyphCollection where
  get : Nat → Option Outline

/-- CachedRange from the source: the encoded span for one glyph instance,
start and end positions in the shared buffer. -/
structure CachedRange where
  start : StreamOffsets
  «end» : StreamOffsets
deriving DecidableEq, Repr

/-- CachedRange::len from the source: component-wise subtraction of start
from end for all six counters. -/
def CachedRange.len (c : CachedRange) : StreamOffsets :=
  { path_tags := c.«end».path_tags - c.start.path_tags
    path_data := c.«end».path_data - c.start.path_data
    draw_tags := c.«end».draw_tags - c.start.draw_tags
    draw_data := c.«end».draw_data - c.start.draw_data
    transforms := c.«end».transforms - c.start.transforms
    styles := c.«end».styles - c.start.styles }

/-- GlyphCache from the source: owns the shared output buffer and the memo
map from GlyphKey to CachedRange.  The Rust HashMap is modelled as an
association list with exact-key lookup; entries are inserted at the front. -/
structure GlyphCache where
  encoding : Encoding
  glyphs : List (GlyphKey × CachedRange)
deriving DecidableEq, Repr

/-- The freshly created cache (Rust Default): empty buffer, empty map. -/
def GlyphCache.default : GlyphCache :=
  ⟨Encoding.empty, []⟩

/-- Exact-key lookup in the memo map (the HashMap lookup of the source;
derived key equality is exact over all five fields). -/
def mapLookup (key : GlyphKey) : List (GlyphKey × CachedRange) → Option CachedRange
  | [] => none
  | e :: rest => if e.1 = key then some e.2 else mapLookup key rest

/-- The commands actually appended for a style: a fill draws the outline commands directly; a stroke first collects them through the BezPathPen
bridge and then appends the stroked fill geometry computed by the external
stroking function (passed in as strokeFn, the kurbo stroke import of the
source, with its fixed 0.01 tolerance folded into it). -/
def styledCmds (strokeFn : List PathCmd → Stroke → List PathCmd)
    (style : Style) (cmds : List PathCmd) : List PathCmd :=
  match style with
  | .fill _ => cmds
  | .stroke st => strokeFn cmds st

/-- The drawing stage of the encode procedure: resolve the outline by the
glyph id truncated to u16 (key.glyph_id as u16 in the source), draw it at
the requested size and coordinates, and apply the geometry processing of the
style.  Absence of the glyph and a drawing failure both yield none. -/
def drawnCmds (outlines : OutlineGlyphCollection)
    (strokeFn : List PathCmd → Stroke → List PathCmd)
    (key : GlyphKey) (style : Style) (size : Nat) (coords : List Int) :
    Option (List PathCmd) :=
  match outlines.get (key.glyph_id % 65536) with
  | none => none
  | some outline =>
    match outline.draw size coords with
    | none => none
    | some cmds => some (styledCmds strokeFn style cmds)

/-- The encode procedure (the encode_glyph closure of get_or_insert):
snapshot start, emit the effective fill style (the own rule of the style for a
fill, non-zero for a stroke), begin a path record, resolve and draw the
outline, finalize; zero finalized segments abort.  The buffer is mutated in
place in the source, so the (possibly mutated) buffer is returned alongside
the optional range. -/
def encode_glyph (outlines : OutlineGlyphCollection)
    (strokeFn : List PathCmd → Stroke → List PathCmd)
    (key : GlyphKey) (style : Style) (size : Nat) (coords : List Int)
    (enc : Encoding) : Option CachedRange × Encoding :=
  let start := enc.stream_offsets
  let fill := match style with
    | .fill f => f
    | .stroke _ => Fill.nonZero
  let enc1 := enc.encode_fill_style fill
  match drawnCmds outlines strokeFn key style size coords with
  | none => (none, enc1)
  | some cmds =>
    let res := enc1.encode_path_finish cmds
    if res.1 = 0 then
      (none, res.2)
    else
      (some ⟨start, res.2.stream_offsets⟩, res.2)

/-- GlyphCache::get_or_insert from the source: compute eligibility
(style is Fill(NonZero) and coords is empty); an eligible request goes
through the entry API of the memo map (occupied: return the stored range;
vacant: encode and insert on success), an ineligible one is always freshly
encoded and never stored.  A failed encode propagates absence, keeping
whatever buffer state the encode attempt left behind. -/
def GlyphCache.get_or_insert (cache : GlyphCache)
    (outlines : OutlineGlyphCollection)
    (strokeFn : List PathCmd → Stroke → List PathCmd)
    (key : GlyphKey) (style : Style) (font_size : Nat)
    (coords : List Int) : Option CachedRange × GlyphCache :=
  let is_var := !coords.isEmpty
  if (match style with | .fill .nonZero => true | _ => false) && !is_var then
    match mapLookup key cache.glyphs with
    | some range => (some range, cache)
    | none =>
      match encode_glyph outlines strokeFn key style font_size coords cache.encoding with
      | (some r, enc1) => (some r, ⟨enc1, (key, r) :: cache.glyphs⟩)
      | (none, enc1) => (none, ⟨enc1, cache.glyphs⟩)
  else
    match encode_glyph outlines strokeFn key style font_size coords cache.encoding with
    | (some r, enc1) => (some r, ⟨enc1, cache.glyphs⟩)
    | (none, enc1) => (none, ⟨enc1, cache.glyphs⟩)

/-- GlyphCache::clear from the source: reset the buffer and clear the memo
map in the same operation. -/
def GlyphCache.clear (cache : GlyphCache) : GlyphCache :=
  ⟨cache.encoding.reset, []⟩

/-- The eligibility policy as the spec states it: the style is a fill with
the non-zero winding rule and the variation-coordinate slice is empty. -/
def eligible (style : Style) (coords : List Int) : Bool :=
  (match style with | .fill .nonZero => true | _ => false) && coords.isEmpty

/-- Well-formedness of a cache: every range stored in the memo map has its
end at or after its start, component-wise. -/
def GlyphCache.WF (c : GlyphCache) : Prop :=
  ∀ e ∈ c.glyphs, StreamOffsets.le e.2.start e.2.«end»

instance (c : GlyphCache) : Decidable c.WF := by
  unfold GlyphCache.WF
  infer_instance

/-! ### Concrete sample inputs, used to evaluate the development -/

/-- An outline source that holds no glyph at all. -/
def emptyOutlines : OutlineGlyphCollection :=
  ⟨fun _ => none⟩

/-- A small triangle-like command list with two drawn segments. -/
def sampleCmds : List PathCmd :=
  [PathCmd.moveTo 0 0, PathCmd.lineTo 10 0, PathCmd.lineTo 10 10, PathCmd.close]

/-- An outline that always draws the sample commands. -/
def sampleOutline : Outline :=
  ⟨fun _ _ => some sampleCmds⟩

/-- An outline producing a bare move-to: zero drawn segments, like a
whitespace glyph. -/
def blankOutline : Outline :=
  ⟨fun _ _ => some [PathCmd.moveTo 0 0]⟩

/-- An outline whose drawing always fails. -/
def failOutline : Outline :=
  ⟨fun _ _ => none⟩

/-- An outline source holding the sample outline at glyph id 5, the blank
one at 6 and the failing one at 7. -/
def sampleOutlines : OutlineGlyphCollection :=
  ⟨fun gid =>
    if gid = 5 then some sampleOutline
    else if gid = 6 then some blankOutline
    else if gid = 7 then some failOutline
    else none⟩

/-- A stroking function that returns the input geometry unchanged. -/
def constStrokeFn : List PathCmd → Stroke → List PathCmd :=
  fun cmds _ => cmds

/-- A sample cache key addressing glyph id 5. -/
def sampleKey : GlyphKey :=
  ⟨1, 0, 5, 42, false⟩

/-- The range produced by encoding the sample outline into an empty buffer:
two path tags, 24 path-data bytes, one style record. -/
def sampleRange : CachedRange :=
  ⟨StreamOffsets.zero, ⟨2, 24, 0, 0, 0, 1⟩⟩

/-! ### Helper lemmas -/

theorem mapLookup_cons_self (k : GlyphKey) (r : CachedRange)
    (m : List (GlyphKey × CachedRange)) :
    mapLookup k ((k, r) :: m) = some r := by
  simp [mapLookup]

theorem mapLookup_cons_ne (k1 k2 : GlyphKey) (r : CachedRange)
    (m : List (GlyphKey × CachedRange)) (h : k1 ≠ k2) :
    mapLookup k2 ((k1, r) :: m) = mapLookup k2 m := by
  simp [mapLookup, h]

theorem encode_glyph_styles (outlines : OutlineGlyphCollection)
    (strokeFn : List PathCmd → Stroke → List PathCmd)
    (key : GlyphKey) (style : Style) (size : Nat) (coords : List Int)
    (enc : Encoding) :
    ((encode_glyph outlines strokeFn key style size coords enc).2).offsets.styles
      = enc.offsets.styles + 1 := by
  simp only [encode_glyph]
  cases h : drawnCmds outlines strokeFn key style size coords with
  | none => simp [Encoding.encode_fill_style]
  | some cmds =>
    simp only [Encoding.encode_path_finish]
    by_cases hn : pathSegments cmds = 0 <;>
      simp [hn, Encoding.encode_fill_style]

theorem encode_glyph_mono (outlines : OutlineGlyphCollection)
    (strokeFn : List PathCmd → Stroke → List PathCmd)
    (key : GlyphKey) (style : Style) (size : Nat) (coords : List Int)
    (enc : Encoding) :
    StreamOffsets.le enc.stream_offsets
      ((encode_glyph outlines strokeFn key style size coords enc).2).stream_offsets := by
  simp only [StreamOffsets.le, Encoding.stream_offsets, encode_glyph]
  cases h : drawnCmds outlines strokeFn key style size coords with
  | none => simp [Encoding.encode_fill_style]
  | some cmds =>
    simp only [Encoding.encode_path_finish]
    by_cases hn : pathSegments cmds = 0 <;>
      simp [hn, Encoding.encode_fill_style]

theorem encode_glyph_some (outlines : OutlineGlyphCollection)
    (strokeFn : List PathCmd → Stroke → List PathCmd)
    (key : GlyphKey) (style : Style) (size : Nat) (coords : List Int)
    (enc : Encoding) (r : CachedRange)
    (h : (encode_glyph outlines strokeFn key style size coords enc).1 = some r) :
    r.start = enc.stream_offsets
      ∧ r.«end» = ((encode_glyph outlines strokeFn key style size coords enc).2).stream_offsets := by
  revert h
  simp only [encode_glyph]
  cases hd : drawnCmds outlines strokeFn key style size coords with
  | none => simp
  | some cmds =>
    simp only [Encoding.encode_path_finish]
    by_cases hn : pathSegments cmds = 0
    · simp [hn]
    · simp only [hn, if_false]
      intro h
      injection h with h
      subst h
      exact ⟨rfl, rfl⟩

theorem encode_glyph_none_iff (outlines : OutlineGlyphCollection)
    (strokeFn : List PathCmd → Stroke → List PathCmd)
    (key : GlyphKey) (style : Style) (size : Nat) (coords : List Int)
    (enc : Encoding) :
    (encode_glyph outlines strokeFn key style size coords enc).1 = none
      ↔ (outlines.get (key.glyph_id % 65536) = none
         ∨ (∃ ol, outlines.get (key.glyph_id % 65536) = some ol
              ∧ ol.draw size coords = none)
         ∨ (∃ ol cmds, outlines.get (key.glyph_id % 65536) = some ol
              ∧ ol.draw size coords = some cmds
              ∧ pathSegments (styledCmds strokeFn style cmds) = 0)) := by
  simp only [encode_glyph, drawnCmds]
  cases hget : outlines.get (key.glyph_id % 65536) with
  | none => simp
  | some ol =>
    cases hdraw : ol.draw size coords with
    | none => simp [hdraw]
    | some cmds =>
      simp only [Encoding.encode_path_finish]
      by_cases hn : pathSegments (styledCmds strokeFn style cmds) = 0 <;>
        simp [hdraw, hn]

theorem encode_glyph_none_indep (outlines : OutlineGlyphCollection)
    (strokeFn : List PathCmd → Stroke → List PathCmd)
    (key : GlyphKey) (style : Style) (size : Nat) (coords : List Int)
    (enc enc' : Encoding) :
    (encode_glyph outlines strokeFn key style size coords enc).1 = none
      ↔ (encode_glyph outlines strokeFn key style size coords enc').1 = none := by
  rw [encode_glyph_none_iff, encode_glyph_none_iff]

theorem get_or_insert_eligible_hit (cache : GlyphCache)
    (outlines : OutlineGlyphCollection)
    (strokeFn : List PathCmd → Stroke → List PathCmd)
    (key : GlyphKey) (style : Style) (font_size : Nat) (coords : List Int)
    (r : CachedRange)
    (he : eligible style coords = true)
    (hl : mapLookup key cache.glyphs = some r) :
    cache.get_or_insert outlines strokeFn key style font_size coords
      = (some r, cache) := by
  unfold eligible at he
  simp only [GlyphCache.get_or_insert, Bool.not_not, he, if_true]
  simp [hl]

theorem get_or_insert_eligible_miss (cache : GlyphCache)
    (outlines : OutlineGlyphCollection)
    (strokeFn : List PathCmd → Stroke → List PathCmd)
    (key : GlyphKey) (style : Style) (font_size : Nat) (coords : List Int)
    (he : eligible style coords = true)
    (hl : mapLookup key cache.glyphs = none) :
    cache.get_or_insert outlines strokeFn key style font_size coords
      = (match encode_glyph outlines strokeFn key style font_size coords cache.encoding with
         | (some r, enc1) => (some r, ⟨enc1, (key, r) :: cache.glyphs⟩)
         | (none, enc1) => (none, ⟨enc1, cache.glyphs⟩)) := by
  unfold eligible at he
  simp only [GlyphCache.get_or_insert, Bool.not_not, he, if_true]
  simp [hl]

theorem get_or_insert_ineligible (cache : GlyphCache)
    (outlines : OutlineGlyphCollection)
    (strokeFn : List PathCmd → Stroke → List PathCmd)
    (key : GlyphKey) (style : Style) (font_size : Nat) (coords : List Int)
    (he : eligible style coords = false) :
    cache.get_or_insert outlines strokeFn key style font_size coords
      = (match encode_glyph outlines strokeFn key style font_size coords cache.encoding with
         | (some r, enc1) => (some r, ⟨enc1, cache.glyphs⟩)
         | (none, enc1) => (none, ⟨enc1, cache.glyphs⟩)) := by
  unfold eligible at he
  simp only [GlyphCache.get_or_insert, Bool.not_not, he, Bool.false_eq_true, if_false]

theorem mapLookup_mem (k : GlyphKey) (m : List (GlyphKey × CachedRange))
    (r : CachedRange) (h : mapLookup k m = some r) : (k, r) ∈ m := by
  induction m with
  | nil => simp [mapLookup] at h
  | cons e rest ih =>
    cases e with
    | mk ek er =>
      by_cases he : ek = k
      · subst he
        simp [mapLookup] at h
        subst h
        exact List.mem_cons_self _ _
      · simp [mapLookup, he] at h
        exact List.mem_cons_of_mem _ (ih h)

theorem encode_glyph_some_styles_lt (outlines : OutlineGlyphCollection)
    (strokeFn : List PathCmd → Stroke → List PathCmd)
    (key : GlyphKey) (style : Style) (size : Nat) (coords : List Int)
    (enc : Encoding) (r : CachedRange)
    (h : (encode_glyph outlines strokeFn key style size coords enc).1 = some r) :
    r.start.styles < r.«end».styles := by
  obtain ⟨h1, h2⟩ := encode_glyph_some outlines strokeFn key style size coords enc r h
  have h3 := encode_glyph_styles outlines strokeFn key style size coords enc
  rw [h1, h2]
  simp only [Encoding.stream_offsets]
  omega

/-! ### Claim theorems -/

/-- C1: evidence against the claimed failure atomicity.  At a concrete
failed call — an eligible key whose glyph id is absent from the outline
source — get_or_insert returns absence, yet the stream offsets of the shared
buffer after the call differ from those before it: the fill-style record
emitted ahead of the fallible outline lookup persists, advancing the style
counter by one. -/
theorem c1_failed_call_advances_offsets :
    (GlyphCache.default.get_or_insert emptyOutlines constStrokeFn sampleKey
        (Style.fill Fill.nonZero) 12 []).1 = none
    ∧ (GlyphCache.default.get_or_insert emptyOutlines constStrokeFn sampleKey
        (Style.fill Fill.nonZero) 12 []).2.encoding.stream_offsets
        ≠ GlyphCache.default.encoding.stream_offsets
    ∧ (GlyphCache.default.get_or_insert emptyOutlines constStrokeFn sampleKey
        (Style.fill Fill.nonZero) 12 []).2.encoding.offsets.styles
        = GlyphCache.default.encoding.offsets.styles + 1 := by
  decide

/-- C4: inside the encode procedure the 32-bit glyph id of the key is reduced
modulo 2 to the 16 before the outline source is queried, so two keys that
agree on the other four fields and on the low 16 bits of the glyph id
resolve and draw the same outline (the whole encode result coincides),
while differing glyph ids still make the keys distinct cache entries. -/
theorem c4_glyph_id_truncated (outlines : OutlineGlyphCollection)
    (strokeFn : List PathCmd → Stroke → List PathCmd)
    (k1 k2 : GlyphKey) (style : Style) (size : Nat) (coords : List Int)
    (enc : Encoding)
    (hfid : k1.font_id = k2.font_id) (hfin : k1.font_index = k2.font_index)
    (hfsb : k1.font_size_bits = k2.font_size_bits) (hh : k1.hint = k2.hint)
    (hg : k1.glyph_id % 65536 = k2.glyph_id % 65536) :
    encode_glyph outlines strokeFn k1 style size coords enc
      = encode_glyph outlines strokeFn k2 style size coords enc
    ∧ (k1.glyph_id ≠ k2.glyph_id → k1 ≠ k2) := by
  constructor
  · simp only [encode_glyph, drawnCmds, hg]
  · intro hne heq
    exact hne (congrArg GlyphKey.glyph_id heq)

/-- C4 witness: glyph ids 5 and 65541 differ only in the upper 16 bits;
the encode results coincide and the keys are distinct. -/
theorem c4_witness :
    sampleKey.glyph_id % 65536 = (GlyphKey.mk 1 0 65541 42 false).glyph_id % 65536
    ∧ encode_glyph sampleOutlines constStrokeFn sampleKey
        (Style.fill Fill.nonZero) 12 [] Encoding.empty
      = encode_glyph sampleOutlines constStrokeFn (GlyphKey.mk 1 0 65541 42 false)
        (Style.fill Fill.nonZero) 12 [] Encoding.empty
    ∧ (sampleKey.glyph_id ≠ (GlyphKey.mk 1 0 65541 42 false).glyph_id →
        sampleKey ≠ GlyphKey.mk 1 0 65541 42 false) :=
  ⟨by decide,
   (c4_glyph_id_truncated sampleOutlines constStrokeFn sampleKey
      (GlyphKey.mk 1 0 65541 42 false) (Style.fill Fill.nonZero) 12 []
      Encoding.empty rfl rfl rfl rfl (by decide)).1,
   (c4_glyph_id_truncated sampleOutlines constStrokeFn sampleKey
      (GlyphKey.mk 1 0 65541 42 false) (Style.fill Fill.nonZero) 12 []
      Encoding.empty rfl rfl rfl rfl (by decide)).2⟩

/-- C8: GlyphKey equality is exact over all five fields, and two keys that
differ only in the bit pattern of font_size_bits are unequal and occupy
distinct entries in the memo map: with both inserted, each key looks up
its own range. -/
theorem c8_key_equality_exact (k1 k2 : GlyphKey) :
    (k1 = k2 ↔ (k1.font_id = k2.font_id ∧ k1.font_index = k2.font_index
       ∧ k1.glyph_id = k2.glyph_id ∧ k1.font_size_bits = k2.font_size_bits
       ∧ k1.hint = k2.hint))
    ∧ (k1.font_id = k2.font_id → k1.font_index = k2.font_index →
       k1.glyph_id = k2.glyph_id → k1.hint = k2.hint →
       k1.font_size_bits ≠ k2.font_size_bits →
       k1 ≠ k2 ∧ ∀ (m : List (GlyphKey × CachedRange)) (r1 r2 : CachedRange),
         mapLookup k1 ((k1, r1) :: (k2, r2) :: m) = some r1
         ∧ mapLookup k2 ((k1, r1) :: (k2, r2) :: m) = some r2) := by
  constructor
  · cases k1
    cases k2
    simp [GlyphKey.mk.injEq]
  · intro h1 h2 h3 h4 h5
    have hne : k1 ≠ k2 := by
      intro heq
      exact h5 (congrArg GlyphKey.font_size_bits heq)
    refine ⟨hne, fun m r1 r2 => ⟨mapLookup_cons_self k1 r1 _, ?_⟩⟩
    rw [mapLookup_cons_ne k1 k2 r1 _ hne]
    exact mapLookup_cons_self k2 r2 m

/-- C8 witness: keys equal except for the size bit pattern (42 vs 43) are
distinct, and each finds its own entry in a map holding both. -/
theorem c8_witness :
    sampleKey ≠ GlyphKey.mk 1 0 5 43 false
    ∧ (mapLookup sampleKey
        ((sampleKey, sampleRange) :: (GlyphKey.mk 1 0 5 43 false, sampleRange) :: [])
        = some sampleRange
       ∧ mapLookup (GlyphKey.mk 1 0 5 43 false)
        ((sampleKey, sampleRange) :: (GlyphKey.mk 1 0 5 43 false, sampleRange) :: [])
        = some sampleRange) :=
  ⟨((c8_key_equality_exact sampleKey (GlyphKey.mk 1 0 5 43 false)).2
      rfl rfl rfl rfl (by decide)).1,
   ((c8_key_equality_exact sampleKey (GlyphKey.mk 1 0 5 43 false)).2
      rfl rfl rfl rfl (by decide)).2 [] sampleRange sampleRange⟩

/-- C9: CachedRange.len is the component-wise subtraction of start from end
for all six counters, and for two sequential successful encode attempts on
the same cache buffer, the start of the second returned range equals the end of
the first. -/
theorem c9_len_and_sequential (c : CachedRange)
    (outlines1 outlines2 : OutlineGlyphCollection)
    (strokeFn1 strokeFn2 : List PathCmd → Stroke → List PathCmd)
    (k1 k2 : GlyphKey) (style1 style2 : Style) (sz1 sz2 : Nat)
    (coords1 coords2 : List Int) (enc : Encoding) (r1 r2 : CachedRange) :
    (c.len.path_tags = c.«end».path_tags - c.start.path_tags
     ∧ c.len.path_data = c.«end».path_data - c.start.path_data
     ∧ c.len.draw_tags = c.«end».draw_tags - c.start.draw_tags
     ∧ c.len.draw_data = c.«end».draw_data - c.start.draw_data
     ∧ c.len.transforms = c.«end».transforms - c.start.transforms
     ∧ c.len.styles = c.«end».styles - c.start.styles)
    ∧ ((encode_glyph outlines1 strokeFn1 k1 style1 sz1 coords1 enc).1 = some r1 →
       (encode_glyph outlines2 strokeFn2 k2 style2 sz2 coords2
           (encode_glyph outlines1 strokeFn1 k1 style1 sz1 coords1 enc).2).1 = some r2 →
       r2.start = r1.«end») := by
  refine ⟨⟨rfl, rfl, rfl, rfl, rfl, rfl⟩, fun h1 h2 => ?_⟩
  have e1 := encode_glyph_some outlines1 strokeFn1 k1 style1 sz1 coords1 enc r1 h1
  have e2 := encode_glyph_some outlines2 strokeFn2 k2 style2 sz2 coords2
    (encode_glyph outlines1 strokeFn1 k1 style1 sz1 coords1 enc).2 r2 h2
  rw [e2.1, e1.2]

/-- C9 witness: two successive successful encodes of the sample glyph; the
second range starts exactly where the first ended. -/
theorem c9_witness :
    (encode_glyph sampleOutlines constStrokeFn sampleKey
        (Style.fill Fill.nonZero) 12 [] Encoding.empty).1 = some sampleRange
    ∧ (encode_glyph sampleOutlines constStrokeFn sampleKey
        (Style.fill Fill.nonZero) 12 []
        (encode_glyph sampleOutlines constStrokeFn sampleKey
          (Style.fill Fill.nonZero) 12 [] Encoding.empty).2).1
      = some (CachedRange.mk (StreamOffsets.mk 2 24 0 0 0 1) (StreamOffsets.mk 4 48 0 0 0 2))
    ∧ (CachedRange.mk (StreamOffsets.mk 2 24 0 0 0 1)
        (StreamOffsets.mk 4 48 0 0 0 2)).start = sampleRange.«end» :=
  ⟨by decide, by decide,
   (c9_len_and_sequential sampleRange sampleOutlines sampleOutlines
      constStrokeFn constStrokeFn sampleKey sampleKey
      (Style.fill Fill.nonZero) (Style.fill Fill.nonZero) 12 12 [] []
      Encoding.empty sampleRange
      (CachedRange.mk (StreamOffsets.mk 2 24 0 0 0 1) (StreamOffsets.mk 4 48 0 0 0 2))).2
      (by decide) (by decide)⟩

/-- C3: once the first get_or_insert call of an eligible key has succeeded, a
second call with the identical arguments is a pure cache hit: it returns
the very same range and leaves the cache — buffer offsets included —
exactly as the first call left it. -/
theorem c3_second_call_is_pure_hit (cache : GlyphCache)
    (outlines : OutlineGlyphCollection)
    (strokeFn : List PathCmd → Stroke → List PathCmd)
    (key : GlyphKey) (style : Style) (font_size : Nat) (coords : List Int)
    (r1 : CachedRange)
    (he : eligible style coords = true)
    (h1 : (cache.get_or_insert outlines strokeFn key style font_size coords).1 = some r1) :
    (cache.get_or_insert outlines strokeFn key style font_size coords).2.get_or_insert
        outlines strokeFn key style font_size coords
      = (some r1, (cache.get_or_insert outlines strokeFn key style font_size coords).2) := by
  cases hl : mapLookup key cache.glyphs with
  | some r0 =>
    have hgo := get_or_insert_eligible_hit cache outlines strokeFn key style font_size coords r0 he hl
    rw [hgo] at h1 ⊢
    replace h1 : some r0 = some r1 := h1
    injection h1 with h1
    subst h1
    exact get_or_insert_eligible_hit cache outlines strokeFn key style font_size coords r0 he hl
  | none =>
    have hgo := get_or_insert_eligible_miss cache outlines strokeFn key style font_size coords he hl
    cases hE : encode_glyph outlines strokeFn key style font_size coords cache.encoding with
    | mk o e =>
      rw [hE] at hgo
      cases o with
      | none =>
        rw [hgo] at h1
        simp at h1
      | some r =>
        rw [hgo] at h1 ⊢
        replace h1 : some r = some r1 := h1
        injection h1 with h1
        subst h1
        exact get_or_insert_eligible_hit ⟨e, (key, r) :: cache.glyphs⟩ outlines strokeFn
          key style font_size coords r he (mapLookup_cons_self key r cache.glyphs)

/-- C3 witness: a concrete successful first call on the sample glyph; the
second identical call returns the same range with the cache untouched. -/
theorem c3_witness :
    eligible (Style.fill Fill.nonZero) [] = true
    ∧ (GlyphCache.default.get_or_insert sampleOutlines constStrokeFn sampleKey
        (Style.fill Fill.nonZero) 12 []).1 = some sampleRange
    ∧ (GlyphCache.default.get_or_insert sampleOutlines constStrokeFn sampleKey
        (Style.fill Fill.nonZero) 12 []).2.get_or_insert sampleOutlines constStrokeFn
        sampleKey (Style.fill Fill.nonZero) 12 []
      = (some sampleRange,
         (GlyphCache.default.get_or_insert sampleOutlines constStrokeFn sampleKey
           (Style.fill Fill.nonZero) 12 []).2) :=
  ⟨by decide, by decide,
   c3_second_call_is_pure_hit GlyphCache.default sampleOutlines constStrokeFn sampleKey
     (Style.fill Fill.nonZero) 12 [] sampleRange (by decide) (by decide)⟩

/-- C6: a get_or_insert call that returns absence never inserts into the
memo map: the map after the call is exactly the map before it, and a lookup
of the requested key observes the same answer as before. -/
theorem c6_failure_preserves_map (cache : GlyphCache)
    (outlines : OutlineGlyphCollection)
    (strokeFn : List PathCmd → Stroke → List PathCmd)
    (key : GlyphKey) (style : Style) (font_size : Nat) (coords : List Int)
    (h : (cache.get_or_insert outlines strokeFn key style font_size coords).1 = none) :
    (cache.get_or_insert outlines strokeFn key style font_size coords).2.glyphs = cache.glyphs
    ∧ mapLookup key (cache.get_or_insert outlines strokeFn key style font_size coords).2.glyphs
        = mapLookup key cache.glyphs := by
  cases he : eligible style coords with
  | true =>
    cases hl : mapLookup key cache.glyphs with
    | some r0 =>
      rw [get_or_insert_eligible_hit cache outlines strokeFn key style font_size coords r0 he hl] at h
      simp at h
    | none =>
      rw [get_or_insert_eligible_miss cache outlines strokeFn key style font_size coords he hl] at h ⊢
      cases hE : encode_glyph outlines strokeFn key style font_size coords cache.encoding with
      | mk o e =>
        rw [hE] at h
        cases o with
        | some r =>
          replace h : (some r : Option CachedRange) = none := h
          exact Option.noConfusion h
        | none => exact ⟨rfl, hl⟩
  | false =>
    rw [get_or_insert_ineligible cache outlines strokeFn key style font_size coords he] at h ⊢
    cases hE : encode_glyph outlines strokeFn key style font_size coords cache.encoding with
    | mk o e =>
      rw [hE] at h
      cases o with
      | some r =>
        replace h : (some r : Option CachedRange) = none := h
        exact Option.noConfusion h
      | none => exact ⟨rfl, rfl⟩

/-- C6 witness: a concrete failed call (glyph absent from the outline
source) leaves the memo map untouched and the key still a miss. -/
theorem c6_witness :
    (GlyphCache.default.get_or_insert emptyOutlines constStrokeFn sampleKey
        (Style.fill Fill.nonZero) 12 []).1 = none
    ∧ ((GlyphCache.default.get_or_insert emptyOutlines constStrokeFn sampleKey
          (Style.fill Fill.nonZero) 12 []).2.glyphs = GlyphCache.default.glyphs
       ∧ mapLookup sampleKey (GlyphCache.default.get_or_insert emptyOutlines constStrokeFn
          sampleKey (Style.fill Fill.nonZero) 12 []).2.glyphs
         = mapLookup sampleKey GlyphCache.default.glyphs) :=
  ⟨by decide,
   c6_failure_preserves_map GlyphCache.default emptyOutlines constStrokeFn sampleKey
     (Style.fill Fill.nonZero) 12 [] (by decide)⟩

/-- C7: clear resets the buffer to the all-zero offsets and empties the
memo map in the same operation; afterwards every key is a miss, a
subsequent get_or_insert re-runs the encode procedure on the empty buffer,
and any range it returns starts at the zero offsets. -/
theorem c7_clear_resets (cache : GlyphCache)
    (outlines : OutlineGlyphCollection)
    (strokeFn : List PathCmd → Stroke → List PathCmd)
    (key : GlyphKey) (style : Style) (font_size : Nat) (coords : List Int) :
    cache.clear.glyphs = []
    ∧ cache.clear.encoding.stream_offsets = StreamOffsets.zero
    ∧ mapLookup key cache.clear.glyphs = none
    ∧ (cache.clear.get_or_insert outlines strokeFn key style font_size coords).1
        = (encode_glyph outlines strokeFn key style font_size coords Encoding.empty).1
    ∧ (∀ r, (cache.clear.get_or_insert outlines strokeFn key style font_size coords).1
          = some r → r.start = StreamOffsets.zero) := by
  have hencEq : cache.clear.encoding = Encoding.empty := rfl
  have hfst : (cache.clear.get_or_insert outlines strokeFn key style font_size coords).1
      = (encode_glyph outlines strokeFn key style font_size coords Encoding.empty).1 := by
    cases he : eligible style coords with
    | false =>
      rw [get_or_insert_ineligible cache.clear outlines strokeFn key style font_size coords he,
        hencEq]
      cases hE : encode_glyph outlines strokeFn key style font_size coords Encoding.empty with
      | mk o e => cases o <;> rfl
    | true =>
      rw [get_or_insert_eligible_miss cache.clear outlines strokeFn key style font_size coords
        he rfl, hencEq]
      cases hE : encode_glyph outlines strokeFn key style font_size coords Encoding.empty with
      | mk o e => cases o <;> rfl
  refine ⟨rfl, rfl, rfl, hfst, fun r hr => ?_⟩
  rw [hfst] at hr
  rw [(encode_glyph_some outlines strokeFn key style font_size coords Encoding.empty r hr).1]
  rfl

/-- C7 witness: after caching the sample glyph and clearing, the same key
is re-encoded from the zero offsets and returns the original range. -/
theorem c7_witness :
    ((GlyphCache.default.get_or_insert sampleOutlines constStrokeFn sampleKey
        (Style.fill Fill.nonZero) 12 []).2.clear.get_or_insert sampleOutlines constStrokeFn
        sampleKey (Style.fill Fill.nonZero) 12 []).1 = some sampleRange
    ∧ sampleRange.start = StreamOffsets.zero :=
  ⟨by decide,
   (c7_clear_resets (GlyphCache.default.get_or_insert sampleOutlines constStrokeFn sampleKey
      (Style.fill Fill.nonZero) 12 []).2 sampleOutlines constStrokeFn sampleKey
      (Style.fill Fill.nonZero) 12 []).2.2.2.2 sampleRange (by decide)⟩

/-- C2: the memoization policy.  An ineligible request (any style other
than a non-zero fill, or non-empty variation coordinates) never touches the
memo map: the map is unchanged by the call, the result is always the fresh
encode of the current buffer (never an answer from the map), and a repeated
identical ineligible request re-encodes, advancing the buffer offsets a
second time (each successful encode strictly advances the style counter and
the second range starts where the first ended).  Conversely, a successful
eligible request leaves its range memoized under its key. -/
theorem c2_memoization_policy (cache : GlyphCache)
    (outlines : OutlineGlyphCollection)
    (strokeFn : List PathCmd → Stroke → List PathCmd)
    (key : GlyphKey) (style : Style) (font_size : Nat) (coords : List Int) :
    (eligible style coords = false →
      (cache.get_or_insert outlines strokeFn key style font_size coords).2.glyphs = cache.glyphs
      ∧ (cache.get_or_insert outlines strokeFn key style font_size coords).1
          = (encode_glyph outlines strokeFn key style font_size coords cache.encoding).1
      ∧ (∀ r1, (cache.get_or_insert outlines strokeFn key style font_size coords).1 = some r1 →
          ∃ r2, ((cache.get_or_insert outlines strokeFn key style font_size coords).2.get_or_insert
                    outlines strokeFn key style font_size coords).1 = some r2
            ∧ r2.start = r1.«end»
            ∧ r1.start.styles < r1.«end».styles
            ∧ r2.start.styles < r2.«end».styles))
    ∧ (eligible style coords = true →
        ∀ r, (cache.get_or_insert outlines strokeFn key style font_size coords).1 = some r →
          mapLookup key (cache.get_or_insert outlines strokeFn key style font_size coords).2.glyphs
            = some r) := by
  constructor
  · intro he
    have hgo := get_or_insert_ineligible cache outlines strokeFn key style font_size coords he
    cases hE : encode_glyph outlines strokeFn key style font_size coords cache.encoding with
    | mk o e =>
      rw [hE] at hgo
      cases o with
      | none =>
        refine ⟨by rw [hgo], by rw [hgo], fun r1 h1 => ?_⟩
        rw [hgo] at h1
        replace h1 : (none : Option CachedRange) = some r1 := h1
        exact Option.noConfusion h1
      | some r =>
        refine ⟨by rw [hgo], by rw [hgo], fun r1 h1 => ?_⟩
        rw [hgo] at h1
        replace h1 : some r = some r1 := h1
        injection h1 with h1
        subst h1
        have hnn : (encode_glyph outlines strokeFn key style font_size coords e).1 ≠ none := by
          intro hcontra
          have hfirst := (encode_glyph_none_indep outlines strokeFn key style font_size coords
            e cache.encoding).mp hcontra
          rw [hE] at hfirst
          exact Option.noConfusion (show (some r : Option CachedRange) = none from hfirst)
        have hgo2 := get_or_insert_ineligible ⟨e, cache.glyphs⟩ outlines strokeFn key style
          font_size coords he
        cases hE2 : encode_glyph outlines strokeFn key style font_size coords e with
        | mk o2 e2 =>
          rw [hE2] at hgo2
          cases o2 with
          | none => exact absurd (by rw [hE2]) hnn
          | some r2 =>
            have s1 := encode_glyph_some outlines strokeFn key style font_size coords
              cache.encoding r (by rw [hE])
            have s2 := encode_glyph_some outlines strokeFn key style font_size coords
              e r2 (by rw [hE2])
            refine ⟨r2, ?_, ?_, ?_, ?_⟩
            · rw [hgo, hgo2]
            · rw [s2.1, s1.2, hE]
            · exact encode_glyph_some_styles_lt outlines strokeFn key style font_size coords
                cache.encoding r (by rw [hE])
            · exact encode_glyph_some_styles_lt outlines strokeFn key style font_size coords
                e r2 (by rw [hE2])
  · intro he r hr
    cases hl : mapLookup key cache.glyphs with
    | some r0 =>
      have hgo := get_or_insert_eligible_hit cache outlines strokeFn key style font_size coords
        r0 he hl
      rw [hgo] at hr ⊢
      replace hr : some r0 = some r := hr
      injection hr with hr
      subst hr
      exact hl
    | none =>
      have hgo := get_or_insert_eligible_miss cache outlines strokeFn key style font_size coords
        he hl
      cases hE : encode_glyph outlines strokeFn key style font_size coords cache.encoding with
      | mk o e =>
        rw [hE] at hgo
        rw [hgo] at hr ⊢
        cases o with
        | none =>
          replace hr : (none : Option CachedRange) = some r := hr
          exact Option.noConfusion hr
        | some r1 =>
          replace hr : some r1 = some r := hr
          injection hr with hr
          subst hr
          exact mapLookup_cons_self key r1 cache.glyphs

/-- C2 witness: a stroke-style request on the sample glyph is ineligible:
it succeeds yet leaves the memo map empty, and is answered by a fresh
encode. -/
theorem c2_witness :
    eligible (Style.stroke (Stroke.mk 0)) [] = false
    ∧ (GlyphCache.default.get_or_insert sampleOutlines constStrokeFn sampleKey
        (Style.stroke (Stroke.mk 0)) 12 []).2.glyphs = GlyphCache.default.glyphs
    ∧ (GlyphCache.default.get_or_insert sampleOutlines constStrokeFn sampleKey
        (Style.stroke (Stroke.mk 0)) 12 []).1
      = (encode_glyph sampleOutlines constStrokeFn sampleKey (Style.stroke (Stroke.mk 0))
          12 [] GlyphCache.default.encoding).1 :=
  ⟨by decide,
   ((c2_memoization_policy GlyphCache.default sampleOutlines constStrokeFn sampleKey
      (Style.stroke (Stroke.mk 0)) 12 []).1 (by decide)).1,
   ((c2_memoization_policy GlyphCache.default sampleOutlines constStrokeFn sampleKey
      (Style.stroke (Stroke.mk 0)) 12 []).1 (by decide)).2.1⟩

/-- C5: get_or_insert returns absence exactly when an encode attempt is
made (the request is ineligible or its key is not memoized) and that
attempt aborts for one of the three reasons: the glyph id (truncated to 16
bits) is absent from the outline source, drawing the outline fails, or the
finalized path record has zero segments; in every other case a range is
returned. -/
theorem c5_absence_characterization (cache : GlyphCache)
    (outlines : OutlineGlyphCollection)
    (strokeFn : List PathCmd → Stroke → List PathCmd)
    (key : GlyphKey) (style : Style) (font_size : Nat) (coords : List Int) :
    (cache.get_or_insert outlines strokeFn key style font_size coords).1 = none
      ↔ ((eligible style coords = false ∨ mapLookup key cache.glyphs = none)
         ∧ (outlines.get (key.glyph_id % 65536) = none
            ∨ (∃ ol, outlines.get (key.glyph_id % 65536) = some ol
                 ∧ ol.draw font_size coords = none)
            ∨ (∃ ol cmds, outlines.get (key.glyph_id % 65536) = some ol
                 ∧ ol.draw font_size coords = some cmds
                 ∧ pathSegments (styledCmds strokeFn style cmds) = 0))) := by
  have hiff := encode_glyph_none_iff outlines strokeFn key style font_size coords cache.encoding
  cases he : eligible style coords with
  | false =>
    rw [get_or_insert_ineligible cache outlines strokeFn key style font_size coords he]
    cases hE : encode_glyph outlines strokeFn key style font_size coords cache.encoding with
    | mk o e =>
      rw [hE] at hiff
      cases o with
      | none =>
        constructor
        · intro _
          exact ⟨Or.inl rfl, hiff.mp rfl⟩
        · intro _
          rfl
      | some r =>
        constructor
        · intro hfalse
          replace hfalse : (some r : Option CachedRange) = none := hfalse
          exact Option.noConfusion hfalse
        · rintro ⟨_, hcond⟩
          have h2 : (some r : Option CachedRange) = none := hiff.mpr hcond
          exact Option.noConfusion h2
  | true =>
    cases hl : mapLookup key cache.glyphs with
    | some r0 =>
      rw [get_or_insert_eligible_hit cache outlines strokeFn key style font_size coords r0 he hl]
      constructor
      · intro hfalse
        replace hfalse : (some r0 : Option CachedRange) = none := hfalse
        exact Option.noConfusion hfalse
      · rintro ⟨hatt, _⟩
        cases hatt with
        | inl hfe => exact Bool.noConfusion hfe
        | inr hln => exact Option.noConfusion hln
    | none =>
      rw [get_or_insert_eligible_miss cache outlines strokeFn key style font_size coords he hl]
      cases hE : encode_glyph outlines strokeFn key style font_size coords cache.encoding with
      | mk o e =>
        rw [hE] at hiff
        cases o with
        | none =>
          constructor
          · intro _
            exact ⟨Or.inr rfl, hiff.mp rfl⟩
          · intro _
            rfl
        | some r =>
          constructor
          · intro hfalse
            replace hfalse : (some r : Option CachedRange) = none := hfalse
            exact Option.noConfusion hfalse
          · rintro ⟨_, hcond⟩
            have h2 : (some r : Option CachedRange) = none := hiff.mpr hcond
            exact Option.noConfusion h2

/-- C5 witness: the characterization applied at a concrete input: with an
outline source holding no glyph, an eligible fresh request aborts because
the glyph id is absent, so the call returns absence. -/
theorem c5_witness :
    (GlyphCache.default.get_or_insert emptyOutlines constStrokeFn sampleKey
        (Style.fill Fill.nonZero) 12 []).1 = none :=
  (c5_absence_characterization GlyphCache.default emptyOutlines constStrokeFn sampleKey
     (Style.fill Fill.nonZero) 12 []).mpr ⟨Or.inr rfl, Or.inl rfl⟩

/-- C10: on a well-formed cache (every stored range has end at or after
start, component-wise) any range a get_or_insert call returns satisfies
end at or after start, and the call, as well as clear, preserves
well-formedness; the freshly created cache is well-formed. -/
theorem c10_range_monotone (cache : GlyphCache)
    (outlines : OutlineGlyphCollection)
    (strokeFn : List PathCmd → Stroke → List PathCmd)
    (key : GlyphKey) (style : Style) (font_size : Nat) (coords : List Int)
    (hwf : cache.WF) :
    (∀ r, (cache.get_or_insert outlines strokeFn key style font_size coords).1 = some r →
        StreamOffsets.le r.start r.«end»)
    ∧ (cache.get_or_insert outlines strokeFn key style font_size coords).2.WF
    ∧ cache.clear.WF
    ∧ GlyphCache.default.WF := by
  have hEnc : ∀ (enc : Encoding) (r : CachedRange),
      (encode_glyph outlines strokeFn key style font_size coords enc).1 = some r →
      StreamOffsets.le r.start r.«end» := by
    intro enc r h
    obtain ⟨h1, h2⟩ := encode_glyph_some outlines strokeFn key style font_size coords enc r h
    rw [h1, h2]
    exact encode_glyph_mono outlines strokeFn key style font_size coords enc
  have hclear : cache.clear.WF := by
    intro p hp
    simp [GlyphCache.clear] at hp
  have hdef : GlyphCache.default.WF := by
    intro p hp
    simp [GlyphCache.default] at hp
  cases he : eligible style coords with
  | true =>
    cases hl : mapLookup key cache.glyphs with
    | some r0 =>
      rw [get_or_insert_eligible_hit cache outlines strokeFn key style font_size coords r0 he hl]
      refine ⟨fun r h => ?_, hwf, hclear, hdef⟩
      replace h : some r0 = some r := h
      injection h with h
      subst h
      exact hwf (key, r0) (mapLookup_mem key cache.glyphs r0 hl)
    | none =>
      rw [get_or_insert_eligible_miss cache outlines strokeFn key style font_size coords he hl]
      cases hE : encode_glyph outlines strokeFn key style font_size coords cache.encoding with
      | mk o e =>
        cases o with
        | none =>
          refine ⟨fun r h => ?_, hwf, hclear, hdef⟩
          replace h : (none : Option CachedRange) = some r := h
          exact Option.noConfusion h
        | some r1 =>
          have hle := hEnc cache.encoding r1 (by rw [hE])
          refine ⟨fun r h => ?_, ?_, hclear, hdef⟩
          · replace h : some r1 = some r := h
            injection h with h
            subst h
            exact hle
          · intro p hp
            rcases List.mem_cons.mp hp with hp | hp
            · subst hp
              exact hle
            · exact hwf p hp
  | false =>
    rw [get_or_insert_ineligible cache outlines strokeFn key style font_size coords he]
    cases hE : encode_glyph outlines strokeFn key style font_size coords cache.encoding with
    | mk o e =>
      cases o with
      | none =>
        refine ⟨fun r h => ?_, hwf, hclear, hdef⟩
        replace h : (none : Option CachedRange) = some r := h
        exact Option.noConfusion h
      | some r1 =>
        have hle := hEnc cache.encoding r1 (by rw [hE])
        refine ⟨fun r h => ?_, hwf, hclear, hdef⟩
        replace h : some r1 = some r := h
        injection h with h
        subst h
        exact hle

/-- C10 witness: the fresh cache is well-formed; a successful call on it
returns a range with end at or after start and preserves well-formedness. -/
theorem c10_witness :
    GlyphCache.default.WF
    ∧ ((∀ r, (GlyphCache.default.get_or_insert sampleOutlines constStrokeFn sampleKey
          (Style.fill Fill.nonZero) 12 []).1 = some r → StreamOffsets.le r.start r.«end»)
       ∧ (GlyphCache.default.get_or_insert sampleOutlines constStrokeFn sampleKey
          (Style.fill Fill.nonZero) 12 []).2.WF
       ∧ GlyphCache.default.clear.WF
       ∧ GlyphCache.default.WF) :=
  ⟨by decide,
   c10_range_monotone GlyphCache.default sampleOutlines constStrokeFn sampleKey
     (Style.fill Fill.nonZero) 12 [] (by decide)⟩

end GlyphCacheModel
